import Mathlib

/-!
Verification development for the Curve stableswap pool analysis scripts
(`curve_analyzer.py` and `analysis_curve_pool.py`).

The shallow embedding below translates the adaptive log-retrieval engine,
the binary-search block locator, the dual-path log decoder, the metadata
resolver and the swap-record builders into executable Lean definitions.
Loops are modelled with an explicit fuel parameter (every loop in the
source terminates by a decreasing measure except where proven otherwise,
and all theorems about complete runs carry an explicit sufficient-fuel
hypothesis); backend I/O (`get_logs`, `get_block`, contract calls) is
modelled by oracle functions passed as parameters, with an attempt index
so that arbitrary error sequences can be injected.  Machine integers are
Nat/Int (block numbers are non-negative in all call sites, so Nat
subtraction never truncates under the stated hypotheses); Python floats
used only for normalised token amounts and progress fractions are
modelled by ℚ, and `math.nan` by `Option.none`.
-/

/-- Outcome of one `get_logs` query: either a list of log entries or a raised
exception carrying its message (the source classifies exceptions by substring
matching on `str(e).lower()`). -/
inductive QOutcome (L : Type) where
  | ok (logs : List L)
  | err (msg : String)
deriving DecidableEq

/-- Substring containment, the model of Python's `needle in haystack`. -/
def containsSub (s pat : String) : Bool :=
  decide (pat.toList <:+: s.toList)

/-- `str.lower()`, as a structural map over the character list. -/
def strLower (s : String) : String :=
  String.mk (s.data.map Char.toLower)

/-- `str.upper()`, as a structural map over the character list. -/
def strUpper (s : String) : String :=
  String.mk (s.data.map Char.toUpper)

/-- Capacity-error classification used by `fetch_event_logs` and
`fetch_raw_logs` in `analysis_curve_pool.py` (lines 126-127 and 181-182):
the lowercased message must contain one of three fixed substrings. -/
def capacityMsg_analysis (msg : String) : Bool :=
  containsSub (strLower msg) ("range limit") ||
    containsSub (strLower msg) ("limit exceeded") ||
    containsSub (strLower msg) ("block range")

/-- Capacity-error classification used by `fetch_event_logs_adaptive` and
`fetch_token_exchange_raw` in `curve_analyzer.py` (lines 227-228 and 270-271):
`'range' in msg or 'limit' in msg` on the lowercased message. -/
def capacityMsg_adaptive (msg : String) : Bool :=
  containsSub (strLower msg) ("range") || containsSub (strLower msg) ("limit")

/-- Result of a complete run of an adaptive fetcher: the yielded log entries,
the fractions passed to `progress_cb` in order, every value assigned to the
`step` variable during the call in order, and whether the loop exited normally
(`finished = false` means the fuel ran out before the loop did). -/
structure ARun (L : Type) where
  logs : List L
  progress : List ℚ
  stepAssigns : List Nat
  finished : Bool
deriving DecidableEq

/-- The fraction `min(1.0, (end - from_block + 1) / total)` reported to
`progress_cb` by `fetch_event_logs_adaptive` / `fetch_token_exchange_raw`,
with `total = max(1, to_block - from_block + 1)`. -/
def progVal (fromBlock toBlock end_ : Nat) : ℚ :=
  min 1 (((end_ : ℚ) - (fromBlock : ℚ) + 1) / ((max 1 (toBlock + 1 - fromBlock) : Nat) : ℚ))

/-- Loop body of `fetch_event_logs_adaptive` (`curve_analyzer.py` lines
207-246), also the body of the structurally identical
`fetch_token_exchange_raw` (lines 249-286).  State: attempt index `n`
(feeds the oracle), window cursor `start`/`end_`, current `step`, retry
counter `retries` for the current window, and completed-page counter
`pages`.  On success the window's logs are yielded, progress reported,
the cursor advanced and `pages` checked against `max_pages`; on a
capacity-classified error the step is halved (floor 1) and the same
window retried up to 5 attempts, then the window is skipped; on any
other error the window is retried up to 2 attempts, then skipped.
The `time.sleep` throttle has no data effect and is omitted. -/
def fetchGo {L : Type} (oracle : Nat → Nat → Nat → QOutcome L)
    (fromBlock toBlock maxPages : Nat) :
    Nat → Nat → Nat → Nat → Nat → Nat → Nat → ARun L
  | 0, _, _, _, _, _, _ => ⟨[], [], [], false⟩
  | fuel+1, n, start, end_, step, retries, pages =>
    match oracle n start end_ with
    | QOutcome.ok logs =>
      let p := progVal fromBlock toBlock end_
      let pages' := pages + 1
      if maxPages ≤ pages' then ⟨logs, [p], [], true⟩
      else if toBlock < end_ + 1 then ⟨logs, [p], [], true⟩
      else
        let r := fetchGo oracle fromBlock toBlock maxPages fuel (n+1) (end_+1)
          (min (end_ + 1 + step - 1) toBlock) step 0 pages'
        ⟨logs ++ r.logs, p :: r.progress, r.stepAssigns, r.finished⟩
    | QOutcome.err msg =>
      if capacityMsg_adaptive msg then
        if 5 ≤ retries + 1 then
          if maxPages ≤ pages then ⟨[], [], [], true⟩
          else if toBlock < end_ + 1 then ⟨[], [], [], true⟩
          else fetchGo oracle fromBlock toBlock maxPages fuel (n+1) (end_+1)
            (min (end_ + 1 + step - 1) toBlock) step 0 pages
        else
          let step' := max 1 (step / 2)
          let r := fetchGo oracle fromBlock toBlock maxPages fuel (n+1) start
            (min (start + step' - 1) toBlock) step' (retries+1) pages
          ⟨r.logs, r.progress, step' :: r.stepAssigns, r.finished⟩
      else
        if 2 ≤ retries + 1 then
          if maxPages ≤ pages then ⟨[], [], [], true⟩
          else if toBlock < end_ + 1 then ⟨[], [], [], true⟩
          else fetchGo oracle fromBlock toBlock maxPages fuel (n+1) (end_+1)
            (min (end_ + 1 + step - 1) toBlock) step 0 pages
        else fetchGo oracle fromBlock toBlock maxPages fuel (n+1) start end_ step (retries+1) pages

/-- `fetch_event_logs_adaptive(event, from_block, to_block, step, progress_cb,
max_pages, sleep_s)` from `curve_analyzer.py`: runs the windowed loop starting
at `from_block` with retry counter 0 and page counter 0. -/
def fetch_event_logs_adaptive {L : Type} (oracle : Nat → Nat → Nat → QOutcome L)
    (fromBlock toBlock step maxPages fuel : Nat) : ARun L :=
  if toBlock < fromBlock then ⟨[], [], [], true⟩
  else fetchGo oracle fromBlock toBlock maxPages fuel 0 fromBlock
    (min (fromBlock + step - 1) toBlock) step 0 0

/-- keccak256 of `'TokenExchange(address,int128,uint256,int128,uint256)'`,
the precomputed topic-0 hash `TOPIC_TOKEN_EX` of `curve_analyzer.py` lines
14-15 (value precomputed outside Lean, as the source precomputes it). -/
def TOPIC_TOKEN_EX : Nat :=
  0x8b3e96f2b889fa771c53c981b40daf005f63f637f1869f707052d15a3dd97140

/-- A raw log entry as returned by the node's `eth_getLogs` interface:
block number, transaction hash, emitting address, topic list, and the data
payload modelled as its sequence of 32-byte words (all declared non-indexed
parameter types of `TokenExchange` are static one-word types). -/
structure RawEntry where
  blockNumber : Nat
  txhash : Nat
  address : Nat
  topics : List Nat
  data : List Nat
deriving DecidableEq

/-- `fetch_token_exchange_raw(w3, address, from_block, to_block, ...)` from
`curve_analyzer.py` lines 249-286: identical adaptive-window control flow,
with the pluggable query instantiated to
`w3.eth.get_logs({'fromBlock': start, 'toBlock': end, 'address': address,
'topics': [topic0]})` where `topic0 = TOPIC_TOKEN_EX`. -/
def fetch_token_exchange_raw (eth : Nat → Nat → Nat → Nat → List Nat → QOutcome RawEntry)
    (address fromBlock toBlock step maxPages fuel : Nat) : ARun RawEntry :=
  fetch_event_logs_adaptive (fun n a b => eth n a b address [TOPIC_TOKEN_EX])
    fromBlock toBlock step maxPages fuel

/-- Outcome of a run of one of the `analysis_curve_pool.py` fetchers: normal
loop exit, a re-raised exception with its message, or fuel exhaustion (the
loop was still running). -/
inductive FOut where
  | finished
  | raised (msg : String)
  | fuelOut
deriving DecidableEq

/-- Result of a run of `fetch_event_logs` / `fetch_raw_logs`: yielded logs,
the values assigned to `step` in order, and how the run ended. -/
structure FRun (L : Type) where
  logs : List L
  stepAssigns : List Nat
  outcome : FOut
deriving DecidableEq

/-- `fetch_event_logs(event, from_block, to_block, step)` from
`analysis_curve_pool.py` lines 116-140.  On a capacity-classified error the
step shrinks along the fixed staircase `//2` (above 200) → 200..51 ↦ 50 →
50..11 ↦ 10 → 10..2 ↦ 1, and once `step == 1` still fails the window is
skipped ("give up on this block to avoid infinite loop"); any other error is
re-raised. -/
def felGo {L : Type} (oracle : Nat → Nat → Nat → QOutcome L) (toBlock : Nat) :
    Nat → Nat → Nat → Nat → FRun L
  | 0, _, start, _ =>
    if toBlock < start then ⟨[], [], FOut.finished⟩ else ⟨[], [], FOut.fuelOut⟩
  | fuel+1, n, start, step =>
    if toBlock < start then ⟨[], [], FOut.finished⟩
    else
      let end_ := min (start + step - 1) toBlock
      match oracle n start end_ with
      | QOutcome.ok logs =>
        let r := felGo oracle toBlock fuel (n+1) (end_+1) step
        ⟨logs ++ r.logs, r.stepAssigns, r.outcome⟩
      | QOutcome.err msg =>
        if capacityMsg_analysis msg then
          if 200 < step then
            let r := felGo oracle toBlock fuel (n+1) start (step / 2)
            ⟨r.logs, step / 2 :: r.stepAssigns, r.outcome⟩
          else if 50 < step then
            let r := felGo oracle toBlock fuel (n+1) start 50
            ⟨r.logs, 50 :: r.stepAssigns, r.outcome⟩
          else if 10 < step then
            let r := felGo oracle toBlock fuel (n+1) start 10
            ⟨r.logs, 10 :: r.stepAssigns, r.outcome⟩
          else if 1 < step then
            let r := felGo oracle toBlock fuel (n+1) start 1
            ⟨r.logs, 1 :: r.stepAssigns, r.outcome⟩
          else
            felGo oracle toBlock fuel (n+1) (end_+1) step
        else ⟨[], [], FOut.raised msg⟩

/-- Entry point of `fetch_event_logs`. -/
def fetch_event_logs {L : Type} (oracle : Nat → Nat → Nat → QOutcome L)
    (fromBlock toBlock step fuel : Nat) : FRun L :=
  felGo oracle toBlock fuel 0 fromBlock step

/-- `fetch_raw_logs(address, topic0, from_block, to_block, step)` from
`analysis_curve_pool.py` lines 165-185.  On a capacity-classified error it
sets `step = max(1, step // 2)` and retries the same `start`; unlike
`fetch_event_logs` it has no skip path and no retry cap, so the cursor is
not advanced when `step` is already 1.  Any other error is re-raised. -/
def frlGo {L : Type} (oracle : Nat → Nat → Nat → QOutcome L) (toBlock : Nat) :
    Nat → Nat → Nat → Nat → FRun L
  | 0, _, start, _ =>
    if toBlock < start then ⟨[], [], FOut.finished⟩ else ⟨[], [], FOut.fuelOut⟩
  | fuel+1, n, start, step =>
    if toBlock < start then ⟨[], [], FOut.finished⟩
    else
      let end_ := min (start + step - 1) toBlock
      match oracle n start end_ with
      | QOutcome.ok logs =>
        let r := frlGo oracle toBlock fuel (n+1) (end_+1) step
        ⟨logs ++ r.logs, r.stepAssigns, r.outcome⟩
      | QOutcome.err msg =>
        if capacityMsg_analysis msg then
          let r := frlGo oracle toBlock fuel (n+1) start (max 1 (step / 2))
          ⟨r.logs, max 1 (step / 2) :: r.stepAssigns, r.outcome⟩
        else ⟨[], [], FOut.raised msg⟩

/-- Entry point of `fetch_raw_logs`. -/
def fetch_raw_logs {L : Type} (oracle : Nat → Nat → Nat → QOutcome L)
    (fromBlock toBlock step fuel : Nat) : FRun L :=
  frlGo oracle toBlock fuel 0 fromBlock step

/-- A deterministic node backend: `g b` is the list of matching log entries
at block `b`; a query over `[a, b]` returns the entries of each block of the
range in block order.  This is the semantics of `get_logs` assumed by the
spec's coverage property ("equal to one query over the full range"). -/
def perBlockQuery {L : Type} (g : Nat → List L) (a b : Nat) : List L :=
  (List.range' a (b + 1 - a)).flatMap g

/-- Backend for plain (already filtered) event queries, used to model
`event.get_logs(from_block=start, to_block=end)`. -/
def getLogsDb {L : Type} (db : Nat → List L) (a b : Nat) : List L :=
  perBlockQuery db a b

/-- The address/topic filter of `w3.eth.get_logs({..., 'address': address,
'topics': [topic0]})`: the entry's emitting address must equal `address` and,
when a first topic filter is given, the entry's topic-0 must equal it. -/
def ethMatch (address : Nat) (ts : List Nat) (e : RawEntry) : Bool :=
  (e.address == address) &&
    (match ts with
     | [] => true
     | t :: _ => e.topics.head? == some t)

/-- `eth_getLogs` over a per-block entry database with address/topic filter. -/
def ethGetLogsDb (db : Nat → List RawEntry) (address a b : Nat) (ts : List Nat) : List RawEntry :=
  perBlockQuery (fun k => (db k).filter (ethMatch address ts)) a b

/-- An error-free query oracle over a splittable backend query `q`. -/
def noErrOracle {L : Type} (q : Nat → Nat → List L) : Nat → Nat → Nat → QOutcome L :=
  fun _ a b => QOutcome.ok (q a b)

/-- An error-free `eth_getLogs` oracle backed by a per-block database. -/
def ethOracleDb (db : Nat → List RawEntry) : Nat → Nat → Nat → Nat → List Nat → QOutcome RawEntry :=
  fun _ a b address ts => QOutcome.ok (ethGetLogsDb db address a b ts)

/-- A backend that raises a capacity-classified error on every attempt
(`'block range'` is one of the recognized capacity substrings). -/
def allCapacityOracle : Nat → Nat → Nat → QOutcome Nat :=
  fun _ _ _ => QOutcome.err ("block range")

/-- A backend that raises `msg` on the first attempt and succeeds with the
single log `5` afterwards. -/
def oneErrOracle (msg : String) : Nat → Nat → Nat → QOutcome Nat :=
  fun n _ _ => if n = 0 then QOutcome.err msg else QOutcome.ok [5]

/-- A backend that raises `msg` on the first two attempts and succeeds with
the single log `5` afterwards. -/
def twoErrOracle (msg : String) : Nat → Nat → Nat → QOutcome Nat :=
  fun n _ _ => if n ≤ 1 then QOutcome.err msg else QOutcome.ok [5]

/-- `block_at_timestamp` (`curve_analyzer.py` lines 196-204 and
`analysis_curve_pool.py` lines 60-71): classic lower-bound binary search.
`ts` models the `w3.eth.get_block(mid).timestamp` oracle; the `while lo < hi`
loop is run on explicit fuel (it needs at most `hi - lo` iterations). -/
def block_at_timestamp (ts : Nat → Nat) (target : Nat) : Nat → Nat → Nat → Nat
  | 0, lo, _ => lo
  | fuel+1, lo, hi =>
    if lo < hi then
      if ts ((lo + hi) / 2) < target then
        block_at_timestamp ts target fuel ((lo + hi) / 2 + 1) hi
      else
        block_at_timestamp ts target fuel lo ((lo + hi) / 2)
    else lo

/-- A structured `TokenExchange` event as delivered by the ABI path
(`ev['args']` plus `ev['blockNumber']`, `ev['transactionHash']`).  `sold_id`
and `bought_id` are `int128` values, the token amounts `uint256`. -/
structure StructEv where
  sold_id : Int
  bought_id : Int
  tokens_sold : Nat
  tokens_bought : Nat
  blockNumber : Nat
  txhash : Nat
deriving DecidableEq

/-- One row appended to `swaps` by `analyze_swaps_last_days` (the legacy
duplicate keys `deusd_flow`/`frx_flow`/`price_deusd_in_frx` carry the same
values as the `token0`/`token1` fields and are omitted).  Normalised amounts
are ℚ; an undefined price (`math.nan`) is `none`. -/
structure SwapRec where
  time : Nat
  block : Nat
  txhash : Nat
  direction : String
  token0_flow : ℚ
  token1_flow : ℚ
  price_token0_in_token1 : Option ℚ
deriving DecidableEq

/-- One row appended to `swaps` by `handle_swap` in `analysis_curve_pool.py`. -/
structure SwapRecA where
  time : Nat
  block : Nat
  txhash : Nat
  direction : String
  deusd_flow : ℚ
  frx_flow : ℚ
  price_deusd_in_frx : Option ℚ
deriving DecidableEq

/-- The dictionary `{0: dec0, 1: dec1}` indexed by a decoded `int128` id:
any other key raises `KeyError`, modelled by `none`. -/
def decByIndex (dec0 dec1 : Nat) (i : Int) : Option Nat :=
  if i = 0 then some dec0 else if i = 1 then some dec1 else none

/-- Python's `s or default` on a symbol string: the default is used when the
symbol is empty (falsy). -/
def orDefault (s d : String) : String :=
  if s = "" then d else s

/-- `sym_by_index = {0: meta.sym0 or 'Token0', 1: meta.sym1 or 'Token1'}`
(`curve_analyzer.py` line 310); only ever consulted with index 0 or 1. -/
def symByIndex (sym0 sym1 : String) (i : Int) : String :=
  if i = 0 then orDefault sym0 ("Token0") else orDefault sym1 ("Token1")

/-- Per-event body of the structured (ABI) loop of `analyze_swaps_last_days`
(`curve_analyzer.py` lines 316-348): decimal lookups (which can raise
`KeyError` for an id outside {0, 1}, modelled as `.error`), normalisation,
the explicit `(0, 1)` / `(1, 0)` direction branch with the `else: continue`
skip modelled as `.ok none`, and the record construction. -/
def processOneStruct (dec0 dec1 : Nat) (sym0 sym1 : String) (tsOf : Nat → Nat)
    (ev : StructEv) : Except String (Option SwapRec) :=
  match decByIndex dec0 dec1 ev.sold_id with
  | none => Except.error ("KeyError")
  | some dS =>
    match decByIndex dec0 dec1 ev.bought_id with
    | none => Except.error ("KeyError")
    | some dB =>
      let soldNorm : ℚ := (ev.tokens_sold : ℚ) / 10 ^ dS
      let boughtNorm : ℚ := (ev.tokens_bought : ℚ) / 10 ^ dB
      if ev.sold_id = 0 ∧ ev.bought_id = 1 then
        Except.ok (some
          ⟨tsOf ev.blockNumber, ev.blockNumber, ev.txhash,
            symByIndex sym0 sym1 ev.sold_id ++ "->" ++ symByIndex sym0 sym1 ev.bought_id,
            -soldNorm, boughtNorm,
            if 0 < soldNorm then some (boughtNorm / soldNorm) else none⟩)
      else if ev.sold_id = 1 ∧ ev.bought_id = 0 then
        Except.ok (some
          ⟨tsOf ev.blockNumber, ev.blockNumber, ev.txhash,
            symByIndex sym0 sym1 ev.sold_id ++ "->" ++ symByIndex sym0 sym1 ev.bought_id,
            boughtNorm, -soldNorm,
            if 0 < boughtNorm then some (soldNorm / boughtNorm) else none⟩)
      else Except.ok none

/-- The structured loop of `analyze_swaps_last_days` with its surrounding
`try/except Exception: pass`: records accumulate until the first raised
exception, which silently aborts the loop keeping the records appended so
far (the wall-clock timeout break is time-dependent and not modelled). -/
def processStructList (dec0 dec1 : Nat) (sym0 sym1 : String) (tsOf : Nat → Nat) :
    List StructEv → List SwapRec
  | [] => []
  | e :: r =>
    match processOneStruct dec0 dec1 sym0 sym1 tsOf e with
    | Except.ok (some rec) => rec :: processStructList dec0 dec1 sym0 sym1 tsOf r
    | Except.ok none => processStructList dec0 dec1 sym0 sym1 tsOf r
    | Except.error _ => []

/-- ABI decoding of one 32-byte word as `int128`: the value sign-extended
into the word's low 128 bits, read back as two's complement. -/
def decodeInt128 (w : Nat) : Int :=
  if w % 2 ^ 128 < 2 ^ 127 then ((w % 2 ^ 128 : Nat) : Int)
  else ((w % 2 ^ 128 : Nat) : Int) - 2 ^ 128

/-- ABI decoding of one 32-byte word as `address`: its low 160 bits. -/
def decodeAddress (w : Nat) : Nat :=
  w % 2 ^ 160

/-- Fields produced by the raw-path `abi_decode` calls of
`analyze_swaps_last_days` (`curve_analyzer.py` lines 375-378).  The 1-topic
branch decodes `['address','int128','uint256','int128','uint256']` from the
data payload, binding the buyer; the other branch decodes only
`['int128','uint256','int128','uint256']`, so no buyer is bound (`none`).
`none` as a whole models the `eth_abi` error on a too-short payload. -/
structure RawDecoded where
  buyer : Option Nat
  sold_id : Int
  tokens_sold : Nat
  bought_id : Int
  tokens_bought : Nat
deriving DecidableEq

/-- The `len(topics) == 1` branch of the raw decode path. -/
def abi_decode_raw (topics data : List Nat) : Option RawDecoded :=
  if topics.length = 1 then
    match data with
    | w0 :: w1 :: w2 :: w3 :: w4 :: _ =>
      some ⟨some (decodeAddress w0), decodeInt128 w1, w2, decodeInt128 w3, w4⟩
    | _ => none
  else
    match data with
    | w0 :: w1 :: w2 :: w3 :: _ =>
      some ⟨none, decodeInt128 w0, w1, decodeInt128 w2, w3⟩
    | _ => none

/-- Per-entry body of the raw fallback loop of `analyze_swaps_last_days`
(`curve_analyzer.py` lines 356-404): raw decode (whose errors propagate,
there is no `try` around this loop), decimal lookups, the same direction
branch with `else: continue` as `.ok none`, and record construction. -/
def processOneRaw (dec0 dec1 : Nat) (sym0 sym1 : String) (tsOf : Nat → Nat)
    (e : RawEntry) : Except String (Option SwapRec) :=
  match abi_decode_raw e.topics e.data with
  | none => Except.error ("DecodeError")
  | some d =>
    match decByIndex dec0 dec1 d.sold_id with
    | none => Except.error ("KeyError")
    | some dS =>
      match decByIndex dec0 dec1 d.bought_id with
      | none => Except.error ("KeyError")
      | some dB =>
        let soldNorm : ℚ := (d.tokens_sold : ℚ) / 10 ^ dS
        let boughtNorm : ℚ := (d.tokens_bought : ℚ) / 10 ^ dB
        if d.sold_id = 0 ∧ d.bought_id = 1 then
          Except.ok (some
            ⟨tsOf e.blockNumber, e.blockNumber, e.txhash,
              symByIndex sym0 sym1 d.sold_id ++ "->" ++ symByIndex sym0 sym1 d.bought_id,
              -soldNorm, boughtNorm,
              if 0 < soldNorm then some (boughtNorm / soldNorm) else none⟩)
        else if d.sold_id = 1 ∧ d.bought_id = 0 then
          Except.ok (some
            ⟨tsOf e.blockNumber, e.blockNumber, e.txhash,
              symByIndex sym0 sym1 d.sold_id ++ "->" ++ symByIndex sym0 sym1 d.bought_id,
              boughtNorm, -soldNorm,
              if 0 < boughtNorm then some (soldNorm / boughtNorm) else none⟩)
        else Except.ok none

/-- The raw fallback loop: unlike the structured pass it has no enclosing
`try`, so a raised exception propagates out of `analyze_swaps_last_days`. -/
def processRawList (dec0 dec1 : Nat) (sym0 sym1 : String) (tsOf : Nat → Nat) :
    List RawEntry → Except String (List SwapRec)
  | [] => Except.ok []
  | e :: r =>
    match processOneRaw dec0 dec1 sym0 sym1 tsOf e with
    | Except.error m => Except.error m
    | Except.ok none => processRawList dec0 dec1 sym0 sym1 tsOf r
    | Except.ok (some rec) =>
      match processRawList dec0 dec1 sym0 sym1 tsOf r with
      | Except.error m => Except.error m
      | Except.ok l => Except.ok (rec :: l)

/-- `analyze_swaps_last_days` (`curve_analyzer.py` lines 300-407), decode
orchestration part: run the adaptive structured fetcher with `step=500` over
`[start_block, end_block]`, build swap records with exception absorption,
and if and only if zero records resulted, re-fetch the same range through
`fetch_token_exchange_raw` (step 500, the `TOPIC_TOKEN_EX` filter) and build
records through the raw decode path instead.  The block-range computation
from wall-clock days and the final DataFrame sort are outside this model. -/
def analyze_swaps_last_days (dec0 dec1 : Nat) (sym0 sym1 : String) (tsOf : Nat → Nat)
    (structOracle : Nat → Nat → Nat → QOutcome StructEv)
    (eth : Nat → Nat → Nat → Nat → List Nat → QOutcome RawEntry)
    (pool_addr start_block end_block fuel : Nat) : Except String (List SwapRec) :=
  let sRun := fetch_event_logs_adaptive structOracle start_block end_block 500 20000 fuel
  let swaps := processStructList dec0 dec1 sym0 sym1 tsOf sRun.logs
  if swaps = [] then
    let rRun := fetch_token_exchange_raw eth pool_addr start_block end_block 500 20000 fuel
    processRawList dec0 dec1 sym0 sym1 tsOf rRun.logs
  else Except.ok swaps

/-- `handle_swap(evlog)` from `analysis_curve_pool.py` lines 194-227:
decimal lookups through `decs[sold_id]` (a `KeyError` for ids outside
{0, 1} propagates — the top-level `TokenExchange` loop at lines 230-231 has
no `try`), then the direction branch against `deusd_index`/`frx_index`,
returning without appending (`.ok none`) when neither direction matches. -/
def handle_swap (dec0 dec1 : Nat) (deusd_index frx_index : Int) (tsOf : Nat → Nat)
    (ev : StructEv) : Except String (Option SwapRecA) :=
  match decByIndex dec0 dec1 ev.sold_id with
  | none => Except.error ("KeyError")
  | some dS =>
    match decByIndex dec0 dec1 ev.bought_id with
    | none => Except.error ("KeyError")
    | some dB =>
      let soldNorm : ℚ := (ev.tokens_sold : ℚ) / 10 ^ dS
      let boughtNorm : ℚ := (ev.tokens_bought : ℚ) / 10 ^ dB
      if ev.sold_id = deusd_index ∧ ev.bought_id = frx_index then
        Except.ok (some
          ⟨tsOf ev.blockNumber, ev.blockNumber, ev.txhash, ("deUSD->frxUSD"),
            -soldNorm, boughtNorm,
            if 0 < soldNorm then some (boughtNorm / soldNorm) else none⟩)
      else if ev.sold_id = frx_index ∧ ev.bought_id = deusd_index then
        Except.ok (some
          ⟨tsOf ev.blockNumber, ev.blockNumber, ev.txhash, ("frxUSD->deUSD"),
            boughtNorm, -soldNorm,
            if 0 < boughtNorm then some (soldNorm / boughtNorm) else none⟩)
      else Except.ok none

/-- `PoolMeta` from `curve_analyzer.py` lines 81-91 (addresses as Nat). -/
structure PoolMeta where
  address : Nat
  coin0 : Nat
  coin1 : Nat
  sym0 : String
  sym1 : String
  dec0 : Nat
  dec1 : Nat
  deusd_index : Nat
  frx_index : Nat
deriving DecidableEq

/-- The symbol-substring role heuristic of `get_pool_meta` (lines 182-192):
uppercase both symbols and test the fixed priority list DEUSD-in-0,
DEUSD-in-1, FRXUSD-in-0, FRXUSD-in-1, defaulting to `(0, 1)`. -/
def assignRoles (s0 s1 : String) : Nat × Nat :=
  let u0 := strUpper s0
  let u1 := strUpper s1
  if containsSub u0 ("DEUSD") then (0, 1)
  else if containsSub u1 ("DEUSD") then (1, 0)
  else if containsSub u0 ("FRXUSD") then (1, 0)
  else if containsSub u1 ("FRXUSD") then (0, 1)
  else (0, 1)

/-- `get_pool_meta(w3, pool_addr)` (`curve_analyzer.py` lines 160-193).
The contract calls are oracles: `coin0`/`coin1` are the two token addresses
read from `coins(0)`/`coins(1)`; `symbol0?`/`decimals0?` etc. are the
outcomes of the `symbol()`/`decimals()` attempts, `none` meaning the call
raised.  A failed `symbol()` defaults to `'T0'`/`'T1'` and a failed
`decimals()` to 18. -/
def get_pool_meta (pool_addr coin0 coin1 : Nat)
    (symbol0 symbol1 : Option String) (decimals0 decimals1 : Option Nat) : PoolMeta :=
  let s0 := symbol0.getD ("T0")
  let s1 := symbol1.getD ("T1")
  let d0 := decimals0.getD 18
  let d1 := decimals1.getD 18
  let roles := assignRoles s0 s1
  ⟨pool_addr, coin0, coin1, s0, s1, d0, d1, roles.1, roles.2⟩

/-- `safe(fn, fallback)` from `analysis_curve_pool.py` lines 87-91: run the
call, return the fallback if it raised (`none`). -/
def safe {α : Type} (callResult : Option α) (fallback : α) : α :=
  callResult.getD fallback

/-- The three on-chain lookups attempted by the 20-byte-address branch of
`resolve_pool_from_input` (`curve_analyzer.py` lines 110-148), in order. -/
inductive ProbeCall where
  | coins0
  | minter
  | registry
deriving DecidableEq

/-- The 20-byte-address branch of `resolve_pool_from_input` (lines 110-148),
with the three fallible contract interactions as oracles (`none` = the call
raised): (1) probe `coins(0)` on the address, returning the address itself
on success; (2) else call `minter()` on it as an LP token; (3) else map the
LP token through the registry (`get_registry` + `get_pool_from_lp_token`,
collapsed into one oracle giving the numeric pool address), accepted only
when non-zero.  The result also records which lookups were invoked, in
order; `none` as first component models the final `ValueError`. -/
def resolve_pool_from_input (addr : Nat) (coins0Res : Option Nat)
    (minterRes : Option Nat) (registryRes : Option Nat) : Option Nat × List ProbeCall :=
  match coins0Res with
  | some _ => (some addr, [ProbeCall.coins0])
  | none =>
    match minterRes with
    | some pool => (some pool, [ProbeCall.coins0, ProbeCall.minter])
    | none =>
      match registryRes with
      | some v =>
        if v ≠ 0 then (some v, [ProbeCall.coins0, ProbeCall.minter, ProbeCall.registry])
        else (none, [ProbeCall.coins0, ProbeCall.minter, ProbeCall.registry])
      | none => (none, [ProbeCall.coins0, ProbeCall.minter, ProbeCall.registry])

/-- Per-block raw-log database used as a concrete witness backend: a single
`TokenExchange`-topic entry at block 2. -/
def dbWitness : Nat → List RawEntry :=
  fun k => if k = 2 then [⟨2, 99, 7, [TOPIC_TOKEN_EX, 11], [0, 4, 1, 6]⟩] else []

/-! ## Helper lemmas -/

/-- Substring containment is monotone under shrinking the pattern. -/
theorem containsSub_mono (s p q : String) (hqp : q.toList <:+: p.toList)
    (hp : containsSub s p = true) : containsSub s q = true := by
  unfold containsSub at hp ⊢
  exact decide_eq_true (List.IsInfix.trans hqp (of_decide_eq_true hp))

/-- Consecutive per-block queries concatenate to the query over the union
range. -/
theorem perBlockQuery_split {L : Type} (g : Nat → List L) {a b c : Nat}
    (hab : a ≤ b) (hbc : b < c) :
    perBlockQuery g a b ++ perBlockQuery g (b+1) c = perBlockQuery g a c := by
  unfold perBlockQuery
  rw [← List.flatMap_append]
  congr 1
  rw [show c + 1 - (b+1) = c - b by omega]
  rw [show List.range' (b+1) (c-b) = List.range' (a + (b + 1 - a)) (c-b) by
    rw [show a + (b + 1 - a) = b + 1 by omega]]
  rw [List.range'_append_1]
  congr 1
  omega

/-- Core invariant of the binary search: the result lies in `[lo, hi]`,
every block strictly below it has timestamp below the target, and whenever
the result is below `hi` its own timestamp reaches the target. -/
theorem block_at_timestamp_spec (ts : Nat → Nat) (target : Nat) :
    ∀ fuel lo hi, lo ≤ hi → hi - lo ≤ fuel →
    (∀ a b, lo ≤ a → a ≤ b → b ≤ hi → ts a ≤ ts b) →
    lo ≤ block_at_timestamp ts target fuel lo hi ∧
    block_at_timestamp ts target fuel lo hi ≤ hi ∧
    (∀ b, lo ≤ b → b < block_at_timestamp ts target fuel lo hi → ts b < target) ∧
    (block_at_timestamp ts target fuel lo hi < hi →
      target ≤ ts (block_at_timestamp ts target fuel lo hi)) := by
  intro fuel
  induction fuel with
  | zero =>
    intro lo hi hlh hfuel _
    have : lo = hi := by omega
    subst this
    simp only [block_at_timestamp]
    exact ⟨le_refl _, le_refl _, fun b h1 h2 => absurd h2 (by omega), fun h => absurd h (by omega)⟩
  | succ f ih =>
    intro lo hi hlh hfuel hmono
    simp only [block_at_timestamp]
    by_cases hlt : lo < hi
    · rw [if_pos hlt]
      have hmid1 : lo ≤ (lo + hi) / 2 := by omega
      have hmid2 : (lo + hi) / 2 < hi := by omega
      by_cases hts : ts ((lo + hi) / 2) < target
      · rw [if_pos hts]
        have h := ih ((lo + hi) / 2 + 1) hi (by omega) (by omega)
          (fun a b h1 h2 h3 => hmono a b (by omega) h2 h3)
        refine ⟨by omega, h.2.1, ?_, h.2.2.2⟩
        intro b hb1 hb2
        by_cases hble : b ≤ (lo + hi) / 2
        · exact lt_of_le_of_lt (hmono b ((lo + hi) / 2) hb1 hble (by omega)) hts
        · exact h.2.2.1 b (by omega) hb2
      · rw [if_neg hts]
        have h := ih lo ((lo + hi) / 2) (by omega) (by omega)
          (fun a b h1 h2 h3 => hmono a b h1 h2 (by omega))
        refine ⟨h.1, by omega, h.2.2.1, ?_⟩
        intro hrh
        by_cases hrm : block_at_timestamp ts target f lo ((lo + hi) / 2) < (lo + hi) / 2
        · exact h.2.2.2 hrm
        · have : block_at_timestamp ts target f lo ((lo + hi) / 2) = (lo + hi) / 2 := by omega
          rw [this]
          omega
    · rw [if_neg hlt]
      exact ⟨le_refl _, hlh, fun b h1 h2 => absurd h2 (by omega),
        fun h => absurd h (by omega)⟩

/-! ## Claims -/

/-- C4.  For a `timestamp_of` oracle non-decreasing on `[lo, hi]` and any
target, `block_at_timestamp` returns the first block of the range whose
timestamp is `≥ target`; if the target is at or below the timestamp of `lo`
it returns `lo`, and if every timestamp in the range is below the target it
returns `hi`. -/
theorem block_at_timestamp_first_block (ts : Nat → Nat) (target lo hi fuel : Nat)
    (hlh : lo ≤ hi) (hfuel : hi - lo ≤ fuel)
    (hmono : ∀ a b, lo ≤ a → a ≤ b → b ≤ hi → ts a ≤ ts b) :
    lo ≤ block_at_timestamp ts target fuel lo hi ∧
    block_at_timestamp ts target fuel lo hi ≤ hi ∧
    (∀ b, lo ≤ b → b ≤ hi → target ≤ ts b →
      block_at_timestamp ts target fuel lo hi ≤ b ∧
      target ≤ ts (block_at_timestamp ts target fuel lo hi)) ∧
    (target ≤ ts lo → block_at_timestamp ts target fuel lo hi = lo) ∧
    ((∀ b, lo ≤ b → b ≤ hi → ts b < target) → block_at_timestamp ts target fuel lo hi = hi) := by
  obtain ⟨h1, h2, h3, h4⟩ := block_at_timestamp_spec ts target fuel lo hi hlh hfuel hmono
  have hfirst : ∀ b, lo ≤ b → b ≤ hi → target ≤ ts b →
      block_at_timestamp ts target fuel lo hi ≤ b ∧
      target ≤ ts (block_at_timestamp ts target fuel lo hi) := by
    intro b hb1 hb2 hb3
    have hle : block_at_timestamp ts target fuel lo hi ≤ b := by
      by_contra hgt
      exact absurd hb3 (not_le_of_lt (h3 b hb1 (by omega)))
    refine ⟨hle, ?_⟩
    by_cases hh : block_at_timestamp ts target fuel lo hi < hi
    · exact h4 hh
    · have : block_at_timestamp ts target fuel lo hi = hi := by omega
      have : b = block_at_timestamp ts target fuel lo hi := by omega
      rw [← this]
      exact hb3
  refine ⟨h1, h2, hfirst, ?_, ?_⟩
  · intro hts
    have := (hfirst lo (le_refl lo) hlh hts).1
    omega
  · intro hall
    by_contra hne
    have hlt : block_at_timestamp ts target fuel lo hi < hi := by omega
    exact absurd (h4 hlt) (not_le_of_lt (hall _ h1 h2))

/-- C4 witness: with the identity timestamp oracle on `[0, 10]` and target 5,
the locator's characterization holds at this concrete instance. -/
theorem block_at_timestamp_first_block_witness :
    0 ≤ block_at_timestamp (fun b => b) 5 10 0 10 ∧
    block_at_timestamp (fun b => b) 5 10 0 10 ≤ 10 ∧
    (∀ b, 0 ≤ b → b ≤ 10 → 5 ≤ (fun b => b) b →
      block_at_timestamp (fun b => b) 5 10 0 10 ≤ b ∧
      5 ≤ (fun b => b) (block_at_timestamp (fun b => b) 5 10 0 10)) ∧
    (5 ≤ (fun b => b) 0 → block_at_timestamp (fun b => b) 5 10 0 10 = 0) ∧
    ((∀ b, 0 ≤ b → b ≤ 10 → (fun b => b) b < 5) → block_at_timestamp (fun b => b) 5 10 0 10 = 10) :=
  block_at_timestamp_first_block (fun b => b) 5 0 10 10 (by decide) (by decide)
    (fun a b _ h _ => h)

/-- C7 counterexample: with both `symbol()` calls failing, `get_pool_meta`
assigns the symbols `'T0'` and `'T1'`, not the synthetic names `'Token0'` /
`'Token1'` claimed by the specification. -/
theorem get_pool_meta_symbol_default_cex :
    (get_pool_meta 0 0 0 none none none none).sym0 = "T0" ∧
    (get_pool_meta 0 0 0 none none none none).sym1 = "T1" ∧
    ("T0" : String) ≠ "Token0" ∧ ("T1" : String) ≠ "Token1" := by
  refine ⟨rfl, rfl, by decide, by decide⟩

/-- C7 amended: `get_pool_meta` reads the pool's two token addresses and
attempts `symbol()` and `decimals()` on each; a failed `symbol()` defaults to
`'T0'` (index 0) / `'T1'` (index 1), a failed `decimals()` defaults to 18,
and successful calls are passed through. -/
theorem get_pool_meta_defaults :
    ∀ (a c0 c1 : Nat) (s0 s1 : Option String) (d0 d1 : Option Nat),
    (get_pool_meta a c0 c1 none s1 d0 d1).sym0 = "T0" ∧
    (get_pool_meta a c0 c1 s0 none d0 d1).sym1 = "T1" ∧
    (get_pool_meta a c0 c1 s0 s1 none d1).dec0 = 18 ∧
    (get_pool_meta a c0 c1 s0 s1 d0 none).dec1 = 18 ∧
    (∀ str, (get_pool_meta a c0 c1 (some str) s1 d0 d1).sym0 = str) ∧
    (∀ k, (get_pool_meta a c0 c1 s0 s1 (some k) d1).dec0 = k) ∧
    (get_pool_meta a c0 c1 s0 s1 d0 d1).coin0 = c0 ∧
    (get_pool_meta a c0 c1 s0 s1 d0 d1).coin1 = c1 :=
  fun _ _ _ _ _ _ _ => ⟨rfl, rfl, rfl, rfl, fun _ => rfl, fun _ => rfl, rfl, rfl⟩

/-- C8.  When the `coins(0)` probe succeeds on a 20-byte address,
`resolve_pool_from_input` returns that address and performs no `minter()`
and no registry lookup, whatever those lookups would have returned. -/
theorem resolve_pool_probe_short_circuit :
    ∀ (addr x : Nat) (minterRes registryRes : Option Nat),
    resolve_pool_from_input addr (some x) minterRes registryRes =
      (some addr, [ProbeCall.coins0]) ∧
    ProbeCall.minter ∉ (resolve_pool_from_input addr (some x) minterRes registryRes).2 ∧
    ProbeCall.registry ∉ (resolve_pool_from_input addr (some x) minterRes registryRes).2 := by
  intro addr x minterRes registryRes
  refine ⟨rfl, ?_, ?_⟩ <;> simp [resolve_pool_from_input]

/-- C10 counterexample: a `TokenExchange` log whose decoded pair is `(2, 0)`
— which is neither `(0, 1)` nor `(1, 0)` — makes both swap processors raise
a `KeyError` (the decimals-dictionary lookup), rather than silently skipping. -/
theorem swap_raises_on_bad_id_cex :
    handle_swap 18 18 0 1 (fun _ => 0) ⟨2, 0, 5, 5, 1, 1⟩ = Except.error ("KeyError") ∧
    processOneStruct 18 18 ("A") ("B") (fun _ => 0) ⟨2, 0, 5, 5, 1, 1⟩ =
      Except.error ("KeyError") := by
  refine ⟨rfl, rfl⟩

/-- C10 amended: a `TokenExchange` log with both decoded ids in {0, 1} but a
pair other than `(0, 1)` / `(1, 0)` (that is, `(0, 0)` or `(1, 1)`) yields no
record and no error from either processor and is silently dropped from list
processing; ids outside {0, 1} instead raise a `KeyError`. -/
theorem swap_skip_amended (dec0 dec1 : Nat) (di fi : Int) (sym0 sym1 : String)
    (tsOf : Nat → Nat) (ev : StructEv) (rest : List StructEv)
    (hdf : di = 0 ∧ fi = 1 ∨ di = 1 ∧ fi = 0)
    (hs : ev.sold_id = 0 ∨ ev.sold_id = 1)
    (hb : ev.bought_id = 0 ∨ ev.bought_id = 1)
    (hn1 : ¬(ev.sold_id = 0 ∧ ev.bought_id = 1))
    (hn2 : ¬(ev.sold_id = 1 ∧ ev.bought_id = 0)) :
    handle_swap dec0 dec1 di fi tsOf ev = Except.ok none ∧
    processOneStruct dec0 dec1 sym0 sym1 tsOf ev = Except.ok none ∧
    processStructList dec0 dec1 sym0 sym1 tsOf (ev :: rest) =
      processStructList dec0 dec1 sym0 sym1 tsOf rest := by
  have hp2 : processOneStruct dec0 dec1 sym0 sym1 tsOf ev = Except.ok none := by
    rcases hs with hs | hs <;> rcases hb with hb | hb
    · simp [processOneStruct, decByIndex, hs, hb]
    · exact absurd ⟨hs, hb⟩ hn1
    · exact absurd ⟨hs, hb⟩ hn2
    · simp [processOneStruct, decByIndex, hs, hb]
  have hp1 : handle_swap dec0 dec1 di fi tsOf ev = Except.ok none := by
    rcases hdf with ⟨hdi, hfi⟩ | ⟨hdi, hfi⟩ <;>
      rcases hs with hs | hs <;> rcases hb with hb | hb
    · simp [handle_swap, decByIndex, hs, hb, hdi, hfi]
    · exact absurd ⟨hs, hb⟩ hn1
    · exact absurd ⟨hs, hb⟩ hn2
    · simp [handle_swap, decByIndex, hs, hb, hdi, hfi]
    · simp [handle_swap, decByIndex, hs, hb, hdi, hfi]
    · exact absurd ⟨hs, hb⟩ hn1
    · exact absurd ⟨hs, hb⟩ hn2
    · simp [handle_swap, decByIndex, hs, hb, hdi, hfi]
  refine ⟨hp1, hp2, ?_⟩
  simp [processStructList, hp2]

/-- C10 witness: the concrete pair `(0, 0)` is skipped without a record or
an error by both processors. -/
theorem swap_skip_amended_witness :
    handle_swap 18 18 0 1 (fun _ => 0) ⟨0, 0, 5, 5, 1, 1⟩ = Except.ok none ∧
    processOneStruct 18 18 ("A") ("B") (fun _ => 0) ⟨0, 0, 5, 5, 1, 1⟩ = Except.ok none ∧
    processStructList 18 18 ("A") ("B") (fun _ => 0) [⟨0, 0, 5, 5, 1, 1⟩] =
      processStructList 18 18 ("A") ("B") (fun _ => 0) [] :=
  swap_skip_amended 18 18 0 1 ("A") ("B") (fun _ => 0) ⟨0, 0, 5, 5, 1, 1⟩ []
    (Or.inl ⟨rfl, rfl⟩) (Or.inl rfl) (Or.inl rfl) (by decide) (by decide)

/-- C5 counterexample: a 2-topic entry decodes to a tuple with no buyer at
all (`buyer = none`); the address carried in `topics[1]` (here 5) is never
read, contradicting the claim that it is decoded from `topics[1]`. -/
theorem raw_decode_buyer_not_read_cex :
    abi_decode_raw [11, 5] [0, 4, 1, 6] = some ⟨none, 0, 4, 1, 6⟩ ∧
    (⟨none, 0, 4, 1, 6⟩ : RawDecoded).buyer = none ∧
    decodeAddress 5 = 5 ∧ (none : Option Nat) ≠ some 5 := by
  refine ⟨by decide, rfl, by decide, by decide⟩

/-- C5 amended: a raw entry with exactly 1 topic decodes all five declared
parameters — including the buyer address — from its data payload; an entry
with 2 topics decodes only the four non-indexed parameters from data and
does not decode the buyer at all (rather than reading it from `topics[1]`);
for equivalent inputs the two shapes produce identical swap records, since
the records never use the buyer. -/
theorem raw_decode_branching (dec0 dec1 : Nat) (sym0 sym1 : String) (tsOf : Nat → Nat)
    (blk tx addr t0 w0 w1 w2 w3 w4 : Nat) :
    abi_decode_raw [t0] [w0, w1, w2, w3, w4] =
      some ⟨some (decodeAddress w0), decodeInt128 w1, w2, decodeInt128 w3, w4⟩ ∧
    abi_decode_raw [t0, w0] [w1, w2, w3, w4] =
      some ⟨none, decodeInt128 w1, w2, decodeInt128 w3, w4⟩ ∧
    processOneRaw dec0 dec1 sym0 sym1 tsOf ⟨blk, tx, addr, [t0], [w0, w1, w2, w3, w4]⟩ =
      processOneRaw dec0 dec1 sym0 sym1 tsOf ⟨blk, tx, addr, [t0, w0], [w1, w2, w3, w4]⟩ := by
  refine ⟨by simp [abi_decode_raw], by simp [abi_decode_raw], ?_⟩
  simp [processOneRaw, abi_decode_raw]

/-- Any amount of fuel leaves the `fetch_raw_logs` loop still running when
every query on the one-block range `[1000, 1000]` raises a capacity error:
once `step` reaches 1 the state repeats forever. -/
theorem frlGo_all_capacity (fuel : Nat) :
    ∀ n step, (frlGo allCapacityOracle 1000 fuel n 1000 step).outcome = FOut.fuelOut := by
  induction fuel with
  | zero =>
    intro n step
    simp [frlGo]
  | succ f ih =>
    intro n step
    have hcap : capacityMsg_analysis ("block range") = true := by decide
    simp [frlGo, allCapacityOracle, hcap, ih]

/-- C1 (code defect).  `fetch_raw_logs` does not terminate on the one-block
range `[1000, 1000]` when the backend classifies every query as a capacity
error: for every fuel bound and every initial step the loop is still running
(`fuelOut`), because the capacity branch only sets `step = max(1, step // 2)`
and never advances `start` nor caps retries.  The other fetchers skip the
window in this situation; this one spins forever, so the claimed
termination bound fails. -/
theorem fetch_raw_logs_nontermination :
    ∀ fuel step : Nat,
    (fetch_raw_logs allCapacityOracle 1000 1000 step fuel).outcome = FOut.fuelOut :=
  fun fuel step => frlGo_all_capacity fuel 0 step

/-- C2 counterexample: the message `'rate limit'` contains none of the three
claimed substrings, yet `fetch_event_logs_adaptive` treats it as a capacity
error (shrinking and retrying through to the successful third attempt),
while `fetch_event_logs` re-raises it — so the claimed classification is not
the one the adaptive fetchers use, and the fetchers do not share one
classification. -/
theorem classification_not_uniform_cex :
    capacityMsg_analysis ("rate limit") = false ∧
    capacityMsg_adaptive ("rate limit") = true ∧
    (fetch_event_logs_adaptive (twoErrOracle ("rate limit")) 0 0 1000 20000 10).logs = [5] ∧
    (fetch_event_logs (oneErrOracle ("rate limit")) 0 0 1000 10).outcome =
      FOut.raised ("rate limit") := by
  refine ⟨by decide, by decide, by decide, by decide⟩

/-- C2 amended: `fetch_event_logs` and `fetch_raw_logs` classify an
exception as a capacity error iff its lowercased message contains
`'range limit'`, `'limit exceeded'` or `'block range'`;
`fetch_event_logs_adaptive` and `fetch_token_exchange_raw` instead use the
strictly broader test `'range' in msg or 'limit' in msg`.  Every message in
the three-substring class is also in the broad class, and the behavioral
demonstrations show shrink-and-retry versus re-raise/skip on each side. -/
theorem capacity_classification_per_fetcher :
    (∀ msg : String, capacityMsg_analysis msg = true → capacityMsg_adaptive msg = true) ∧
    (fetch_event_logs (oneErrOracle ("block range")) 0 0 1000 10).logs = [5] ∧
    (fetch_event_logs (oneErrOracle ("block range")) 0 0 1000 10).outcome = FOut.finished ∧
    (fetch_event_logs (oneErrOracle ("boom")) 0 0 1000 10).outcome = FOut.raised ("boom") ∧
    (fetch_event_logs_adaptive (twoErrOracle ("block range")) 0 0 1000 20000 10).logs = [5] ∧
    (fetch_event_logs_adaptive (twoErrOracle ("boom")) 0 0 1000 20000 10).logs = [] := by
  refine ⟨?_, by decide, by decide, by decide, by decide, by decide⟩
  intro msg h
  simp only [capacityMsg_analysis, capacityMsg_adaptive, Bool.or_eq_true] at h ⊢
  rcases h with (h | h) | h
  · exact Or.inl (containsSub_mono _ _ _ (by decide) h)
  · exact Or.inr (containsSub_mono _ _ _ (by decide) h)
  · exact Or.inl (containsSub_mono _ _ _ (by decide) h)

/-- C2 witness: the implication of the amended classification theorem at the
concrete message `'range limit'`. -/
theorem capacity_classification_per_fetcher_witness :
    capacityMsg_adaptive ("range limit") = true :=
  capacity_classification_per_fetcher.1 ("range limit") (by decide)

/-- Every step value assigned during a `fetchGo` run is at least 1 and the
sequence of assignments, headed by the current step, is non-increasing. -/
theorem fetchGo_step_chain {L : Type} (oracle : Nat → Nat → Nat → QOutcome L)
    (fromBlock toBlock maxPages : Nat) :
    ∀ fuel n start end_ step retries pages, 1 ≤ step →
    List.Chain' (fun a b => b ≤ a)
      (step :: (fetchGo oracle fromBlock toBlock maxPages fuel n start end_ step retries pages).stepAssigns) ∧
    ∀ s ∈ (fetchGo oracle fromBlock toBlock maxPages fuel n start end_ step retries pages).stepAssigns,
      1 ≤ s := by
  intro fuel
  induction fuel with
  | zero =>
    intro n start end_ step retries pages hstep
    refine ⟨?_, ?_⟩ <;> simp [fetchGo]
  | succ f ih =>
    intro n start end_ step retries pages hstep
    have hstep' : 1 ≤ max 1 (step / 2) := le_max_left 1 (step / 2)
    have hle : max 1 (step / 2) ≤ step :=
      Nat.max_le.mpr ⟨hstep, Nat.div_le_self step 2⟩
    simp only [fetchGo]
    cases h : oracle n start end_ with
    | ok logs =>
      by_cases h1 : maxPages ≤ pages + 1
      · simp only [if_pos h1]
        refine ⟨?_, ?_⟩ <;> simp
      · by_cases h2 : toBlock < end_ + 1
        · simp only [if_neg h1, if_pos h2]
          refine ⟨?_, ?_⟩ <;> simp
        · simp only [if_neg h1, if_neg h2]
          exact ih (n+1) (end_+1) (min (end_ + 1 + step - 1) toBlock) step 0 (pages+1) hstep
    | err msg =>
      by_cases hcap : capacityMsg_adaptive msg
      · by_cases hr : 5 ≤ retries + 1
        · simp only [if_pos hcap, if_pos hr]
          by_cases h1 : maxPages ≤ pages
          · simp only [if_pos h1]
            refine ⟨?_, ?_⟩ <;> simp
          · by_cases h2 : toBlock < end_ + 1
            · simp only [if_neg h1, if_pos h2]
              refine ⟨?_, ?_⟩ <;> simp
            · simp only [if_neg h1, if_neg h2]
              exact ih (n+1) (end_+1) (min (end_ + 1 + step - 1) toBlock) step 0 pages hstep
        · simp only [if_pos hcap, if_neg hr]
          obtain ⟨hch, hmem⟩ := ih (n+1) start (min (start + max 1 (step / 2) - 1) toBlock)
            (max 1 (step / 2)) (retries+1) pages hstep'
          refine ⟨List.chain'_cons.mpr ⟨hle, hch⟩, ?_⟩
          intro s hsmem
          rcases List.mem_cons.mp hsmem with hs | hs
          · rw [hs]; exact hstep'
          · exact hmem s hs
      · by_cases hr : 2 ≤ retries + 1
        · simp only [if_neg hcap, if_pos hr]
          by_cases h1 : maxPages ≤ pages
          · simp only [if_pos h1]
            refine ⟨?_, ?_⟩ <;> simp
          · by_cases h2 : toBlock < end_ + 1
            · simp only [if_neg h1, if_pos h2]
              refine ⟨?_, ?_⟩ <;> simp
            · simp only [if_neg h1, if_neg h2]
              exact ih (n+1) (end_+1) (min (end_ + 1 + step - 1) toBlock) step 0 pages hstep
        · simp only [if_neg hcap, if_neg hr]
          exact ih (n+1) start end_ step (retries+1) pages hstep

/-- Every step value assigned during a `felGo` run is at least 1 and the
sequence of assignments, headed by the current step, is non-increasing. -/
theorem felGo_step_chain {L : Type} (oracle : Nat → Nat → Nat → QOutcome L) (toBlock : Nat) :
    ∀ fuel n start step, 1 ≤ step →
    List.Chain' (fun a b => b ≤ a)
      (step :: (felGo oracle toBlock fuel n start step).stepAssigns) ∧
    ∀ s ∈ (felGo oracle toBlock fuel n start step).stepAssigns, 1 ≤ s := by
  intro fuel
  induction fuel with
  | zero =>
    intro n start step hstep
    by_cases h : toBlock < start <;>
      · refine ⟨?_, ?_⟩ <;> simp [felGo, h]
  | succ f ih =>
    intro n start step hstep
    by_cases h : toBlock < start
    · refine ⟨?_, ?_⟩ <;> simp [felGo, h]
    · simp only [felGo, if_neg h]
      cases ho : oracle n start (min (start + step - 1) toBlock) with
      | ok logs =>
        exact ih (n+1) (min (start + step - 1) toBlock + 1) step hstep
      | err msg =>
        by_cases hcap : capacityMsg_analysis msg
        · simp only [if_pos hcap]
          by_cases h200 : 200 < step
          · simp only [if_pos h200]
            obtain ⟨hch, hmem⟩ := ih (n+1) start (step / 2) (by omega)
            refine ⟨List.chain'_cons.mpr ⟨Nat.div_le_self step 2, hch⟩, ?_⟩
            intro s hsmem
            rcases List.mem_cons.mp hsmem with hs | hs
            · omega
            · exact hmem s hs
          · simp only [if_neg h200]
            by_cases h50 : 50 < step
            · simp only [if_pos h50]
              obtain ⟨hch, hmem⟩ := ih (n+1) start 50 (by omega)
              refine ⟨List.chain'_cons.mpr ⟨by omega, hch⟩, ?_⟩
              intro s hsmem
              rcases List.mem_cons.mp hsmem with hs | hs
              · omega
              · exact hmem s hs
            · simp only [if_neg h50]
              by_cases h10 : 10 < step
              · simp only [if_pos h10]
                obtain ⟨hch, hmem⟩ := ih (n+1) start 10 (by omega)
                refine ⟨List.chain'_cons.mpr ⟨by omega, hch⟩, ?_⟩
                intro s hsmem
                rcases List.mem_cons.mp hsmem with hs | hs
                · omega
                · exact hmem s hs
              · simp only [if_neg h10]
                by_cases h1 : 1 < step
                · simp only [if_pos h1]
                  obtain ⟨hch, hmem⟩ := ih (n+1) start 1 (by omega)
                  refine ⟨List.chain'_cons.mpr ⟨by omega, hch⟩, ?_⟩
                  intro s hsmem
                  rcases List.mem_cons.mp hsmem with hs | hs
                  · omega
                  · exact hmem s hs
                · simp only [if_neg h1]
                  exact ih (n+1) (min (start + step - 1) toBlock + 1) step hstep
        · simp only [if_neg hcap]
          refine ⟨?_, ?_⟩ <;> simp

/-- C9.  In any single call of `fetch_event_logs_adaptive` or
`fetch_event_logs` started with `step ≥ 1`, every value assigned to `step`
is at least 1 and each assignment leaves `step` equal or smaller — the
sequence headed by the initial step is non-increasing until the call
returns. -/
theorem fetcher_step_monotone {L : Type} (oracle : Nat → Nat → Nat → QOutcome L)
    (fromBlock toBlock step maxPages fuel : Nat) (hstep : 1 ≤ step) :
    (List.Chain' (fun a b => b ≤ a)
      (step :: (fetch_event_logs_adaptive oracle fromBlock toBlock step maxPages fuel).stepAssigns) ∧
     ∀ s ∈ (fetch_event_logs_adaptive oracle fromBlock toBlock step maxPages fuel).stepAssigns, 1 ≤ s) ∧
    (List.Chain' (fun a b => b ≤ a)
      (step :: (fetch_event_logs oracle fromBlock toBlock step fuel).stepAssigns) ∧
     ∀ s ∈ (fetch_event_logs oracle fromBlock toBlock step fuel).stepAssigns, 1 ≤ s) := by
  constructor
  · unfold fetch_event_logs_adaptive
    by_cases h : toBlock < fromBlock
    · refine ⟨?_, ?_⟩ <;> simp [h]
    · simp only [if_neg h]
      exact fetchGo_step_chain oracle fromBlock toBlock maxPages fuel 0 fromBlock
        (min (fromBlock + step - 1) toBlock) step 0 0 hstep
  · unfold fetch_event_logs
    exact felGo_step_chain oracle toBlock fuel 0 fromBlock step hstep

/-- C9 witness: both fetchers at a concrete all-capacity backend over
`[0, 0]` with initial step 1000. -/
theorem fetcher_step_monotone_witness :
    (List.Chain' (fun a b => b ≤ a)
      (1000 :: (fetch_event_logs_adaptive allCapacityOracle 0 0 1000 20 10).stepAssigns) ∧
     ∀ s ∈ (fetch_event_logs_adaptive allCapacityOracle 0 0 1000 20 10).stepAssigns, 1 ≤ s) ∧
    (List.Chain' (fun a b => b ≤ a)
      (1000 :: (fetch_event_logs allCapacityOracle 0 0 1000 10).stepAssigns) ∧
     ∀ s ∈ (fetch_event_logs allCapacityOracle 0 0 1000 10).stepAssigns, 1 ≤ s) :=
  fetcher_step_monotone allCapacityOracle 0 0 1000 20 10 (by decide)

/-- With an error-free splittable backend, the final reported progress
fraction is exactly 1 and the yielded logs are the single full-range query:
core induction over the windowed loop. -/
theorem fetchGo_coverage {L : Type} (q : Nat → Nat → List L)
    (Hsplit : ∀ a b c : Nat, a ≤ b → b < c → q a b ++ q (b+1) c = q a c)
    (fromBlock toBlock maxPages step : Nat) (hstep : 1 ≤ step) :
    ∀ fuel n start pages,
    fromBlock ≤ start → start ≤ toBlock → toBlock + 1 - start ≤ fuel →
    pages + (toBlock + 1 - start + (step - 1)) / step ≤ maxPages →
    (fetchGo (noErrOracle q) fromBlock toBlock maxPages fuel n start
      (min (start + step - 1) toBlock) step 0 pages).logs = q start toBlock ∧
    (fetchGo (noErrOracle q) fromBlock toBlock maxPages fuel n start
      (min (start + step - 1) toBlock) step 0 pages).progress.getLast? = some 1 ∧
    (fetchGo (noErrOracle q) fromBlock toBlock maxPages fuel n start
      (min (start + step - 1) toBlock) step 0 pages).finished = true := by
  intro fuel
  induction fuel with
  | zero =>
    intro n start pages h1 h2 h3 h4
    omega
  | succ f ih =>
    intro n start pages h1 h2 h3 h4
    simp only [fetchGo, noErrOracle]
    rcases le_or_lt toBlock (start + step - 1) with hge | hlt
    · -- final window: end = toBlock
      have hmin : min (start + step - 1) toBlock = toBlock := Nat.min_eq_right hge
      rw [hmin]
      have hp1 : progVal fromBlock toBlock toBlock = 1 := by
        unfold progVal
        have ht : (max 1 (toBlock + 1 - fromBlock)) = toBlock + 1 - fromBlock := by omega
        rw [ht]
        have hpos : 0 < toBlock + 1 - fromBlock := by omega
        have hne : ((toBlock + 1 - fromBlock : Nat) : ℚ) ≠ 0 := by
          exact_mod_cast hpos.ne'
        have hcast : (toBlock : ℚ) - (fromBlock : ℚ) + 1 = ((toBlock + 1 - fromBlock : Nat) : ℚ) := by
          push_cast [Nat.cast_sub (by omega : fromBlock ≤ toBlock + 1)]
          ring
        rw [hcast, div_self hne, min_self]
      by_cases hmp : maxPages ≤ pages + 1
      · rw [if_pos hmp]
        refine ⟨rfl, ?_, rfl⟩
        simp [hp1]
      · rw [if_neg hmp, if_pos (by omega : toBlock < toBlock + 1)]
        refine ⟨rfl, ?_, rfl⟩
        simp [hp1]
    · -- intermediate window: end = start + step - 1 < toBlock
      have hmin : min (start + step - 1) toBlock = start + step - 1 :=
        Nat.min_eq_left (le_of_lt hlt)
      rw [hmin]
      have hs1 : start + step - 1 + 1 = start + step := by omega
      have hA : step + 1 ≤ toBlock + 1 - start := by omega
      have hdiv2 : 2 ≤ (toBlock + 1 - start + (step - 1)) / step := by
        rw [Nat.le_div_iff_mul_le (by omega : 0 < step)]
        omega
      have hmp : ¬ (maxPages ≤ pages + 1) := by omega
      rw [if_neg hmp]
      have hnb : ¬ (toBlock < start + step - 1 + 1) := by omega
      rw [if_neg hnb]
      have hd2 : toBlock + 1 - start + (step - 1) = (toBlock + 1 - start - 1) + step := by omega
      have hd3 : (toBlock + 1 - start + (step - 1)) / step = (toBlock + 1 - start - 1) / step + 1 := by
        rw [hd2, Nat.add_div_right _ (by omega : 0 < step)]
      have hd1 : toBlock + 1 - (start + step) + (step - 1) = toBlock + 1 - start - 1 := by omega
      have hrec := ih (n+1) (start + step) (pages + 1) (by omega) (by omega) (by omega)
        (by rw [hd1]; rw [hd3] at h4; omega)
      rw [hs1]
      obtain ⟨hl, hpr, hf⟩ := hrec
      refine ⟨?_, ?_, hf⟩
      · rw [hl]
        have := Hsplit start (start + step - 1) toBlock (by omega) hlt
        rw [hs1] at this
        exact this
      · cases hq : (fetchGo (noErrOracle q) fromBlock toBlock maxPages f (n+1) (start + step)
            (min (start + step + step - 1) toBlock) step 0 (pages + 1)).progress with
        | nil => rw [hq] at hpr; simp at hpr
        | cons x xs =>
          rw [hq] at hpr
          simp only [List.getLast?_cons_cons]
          exact hpr

/-- Wrapper-level coverage for `fetch_event_logs_adaptive` over any
error-free splittable backend. -/
theorem adaptive_coverage_general {L : Type} (q : Nat → Nat → List L)
    (Hsplit : ∀ a b c : Nat, a ≤ b → b < c → q a b ++ q (b+1) c = q a c)
    (fromBlock toBlock step maxPages fuel : Nat)
    (h1 : fromBlock ≤ toBlock) (h2 : 1 ≤ step)
    (h3 : (toBlock + 1 - fromBlock + (step - 1)) / step ≤ maxPages)
    (h4 : toBlock + 1 - fromBlock ≤ fuel) :
    (fetch_event_logs_adaptive (noErrOracle q) fromBlock toBlock step maxPages fuel).logs =
      q fromBlock toBlock ∧
    (fetch_event_logs_adaptive (noErrOracle q) fromBlock toBlock step maxPages fuel).progress.getLast? =
      some 1 ∧
    (fetch_event_logs_adaptive (noErrOracle q) fromBlock toBlock step maxPages fuel).finished = true := by
  unfold fetch_event_logs_adaptive
  rw [if_neg (by omega : ¬ (toBlock < fromBlock))]
  exact fetchGo_coverage q Hsplit fromBlock toBlock maxPages step h2 fuel 0 fromBlock 0
    (le_refl _) h1 h4 (by omega)

/-- Coverage of `fetch_token_exchange_raw` over an error-free per-block
backend: it yields exactly the full-range `eth_getLogs` query filtered by
the pool address and the `TOPIC_TOKEN_EX` topic. -/
theorem ftxr_coverage (db : Nat → List RawEntry)
    (address fromBlock toBlock step maxPages fuel : Nat)
    (h1 : fromBlock ≤ toBlock) (h2 : 1 ≤ step)
    (h3 : (toBlock + 1 - fromBlock + (step - 1)) / step ≤ maxPages)
    (h4 : toBlock + 1 - fromBlock ≤ fuel) :
    (fetch_token_exchange_raw (ethOracleDb db) address fromBlock toBlock step maxPages fuel).logs =
      ethGetLogsDb db address fromBlock toBlock [TOPIC_TOKEN_EX] ∧
    (fetch_token_exchange_raw (ethOracleDb db) address fromBlock toBlock step maxPages fuel).progress.getLast? =
      some 1 ∧
    (fetch_token_exchange_raw (ethOracleDb db) address fromBlock toBlock step maxPages fuel).finished = true := by
  have key := adaptive_coverage_general (fun a b => ethGetLogsDb db address a b [TOPIC_TOKEN_EX])
    (fun _ _ _ hab hbc => perBlockQuery_split (fun k => (db k).filter (ethMatch address [TOPIC_TOKEN_EX])) hab hbc)
    fromBlock toBlock step maxPages fuel h1 h2 h3 h4
  exact key

/-- C3.  With a query backend that never errors, a call of
`fetch_event_logs_adaptive` over `[fromBlock, toBlock]` whose number of
sub-windows does not exceed `maxPages` yields exactly the concatenation, in
order, of the sub-window results — equal to one query over the full range —
and the final value passed to `progress_cb` is 1; likewise for
`fetch_token_exchange_raw` over an error-free `eth_getLogs` backend, whose
single full-range query is filtered by the pool address and
`TOPIC_TOKEN_EX`. -/
theorem adaptive_fetch_coverage {L : Type} (db : Nat → List L) (db2 : Nat → List RawEntry)
    (address fromBlock toBlock step maxPages fuel : Nat)
    (h1 : fromBlock ≤ toBlock) (h2 : 1 ≤ step)
    (h3 : (toBlock + 1 - fromBlock + (step - 1)) / step ≤ maxPages)
    (h4 : toBlock + 1 - fromBlock ≤ fuel) :
    ((fetch_event_logs_adaptive (noErrOracle (getLogsDb db)) fromBlock toBlock step maxPages fuel).logs =
        getLogsDb db fromBlock toBlock ∧
      (fetch_event_logs_adaptive (noErrOracle (getLogsDb db)) fromBlock toBlock step maxPages fuel).progress.getLast? =
        some 1 ∧
      (fetch_event_logs_adaptive (noErrOracle (getLogsDb db)) fromBlock toBlock step maxPages fuel).finished = true) ∧
    ((fetch_token_exchange_raw (ethOracleDb db2) address fromBlock toBlock step maxPages fuel).logs =
        ethGetLogsDb db2 address fromBlock toBlock [TOPIC_TOKEN_EX] ∧
      (fetch_token_exchange_raw (ethOracleDb db2) address fromBlock toBlock step maxPages fuel).progress.getLast? =
        some 1 ∧
      (fetch_token_exchange_raw (ethOracleDb db2) address fromBlock toBlock step maxPages fuel).finished = true) :=
  ⟨adaptive_coverage_general (getLogsDb db)
      (fun _ _ _ hab hbc => perBlockQuery_split db hab hbc)
      fromBlock toBlock step maxPages fuel h1 h2 h3 h4,
    ftxr_coverage db2 address fromBlock toBlock step maxPages fuel h1 h2 h3 h4⟩

/-- C3 witness: blocks `[0, 5]`, one log per block, step 2, page ceiling 10,
and the single-entry raw backend `dbWitness` on address 7, range `[1, 3]`. -/
theorem adaptive_fetch_coverage_witness :
    ((fetch_event_logs_adaptive (noErrOracle (getLogsDb (fun b => [b]))) 0 5 2 10 10).logs =
        getLogsDb (fun b => [b]) 0 5 ∧
      (fetch_event_logs_adaptive (noErrOracle (getLogsDb (fun b => [b]))) 0 5 2 10 10).progress.getLast? =
        some 1 ∧
      (fetch_event_logs_adaptive (noErrOracle (getLogsDb (fun b => [b]))) 0 5 2 10 10).finished = true) ∧
    ((fetch_token_exchange_raw (ethOracleDb dbWitness) 7 0 5 2 10 10).logs =
        ethGetLogsDb dbWitness 7 0 5 [TOPIC_TOKEN_EX] ∧
      (fetch_token_exchange_raw (ethOracleDb dbWitness) 7 0 5 2 10 10).progress.getLast? =
        some 1 ∧
      (fetch_token_exchange_raw (ethOracleDb dbWitness) 7 0 5 2 10 10).finished = true) :=
  adaptive_fetch_coverage (fun b => [b]) dbWitness 7 0 5 2 10 10
    (by decide) (by decide) (by decide) (by decide)

/-- C6.  `analyze_swaps_last_days` attempts the structured (ABI) decode pass
first, and falls back to the raw path if and only if that pass produced zero
swap records: with a nonempty structured result the outcome is exactly those
records, whatever the raw backend would answer; with an empty structured
result the outcome is the raw-path processing of a re-fetch of the same
`[start_block, end_block]` range filtered by the precomputed
`TOPIC_TOKEN_EX` topic-0 hash. -/
theorem analyze_fallback_policy (dec0 dec1 : Nat) (sym0 sym1 : String) (tsOf : Nat → Nat)
    (structOracle : Nat → Nat → Nat → QOutcome StructEv) (db : Nat → List RawEntry)
    (pool_addr start_block end_block fuel : Nat)
    (h1 : start_block ≤ end_block)
    (h2 : end_block + 1 - start_block ≤ fuel)
    (h3 : (end_block + 1 - start_block + 499) / 500 ≤ 20000) :
    (processStructList dec0 dec1 sym0 sym1 tsOf
        (fetch_event_logs_adaptive structOracle start_block end_block 500 20000 fuel).logs ≠ [] →
      ∀ eth, analyze_swaps_last_days dec0 dec1 sym0 sym1 tsOf structOracle eth
          pool_addr start_block end_block fuel =
        Except.ok (processStructList dec0 dec1 sym0 sym1 tsOf
          (fetch_event_logs_adaptive structOracle start_block end_block 500 20000 fuel).logs)) ∧
    (processStructList dec0 dec1 sym0 sym1 tsOf
        (fetch_event_logs_adaptive structOracle start_block end_block 500 20000 fuel).logs = [] →
      analyze_swaps_last_days dec0 dec1 sym0 sym1 tsOf structOracle (ethOracleDb db)
          pool_addr start_block end_block fuel =
        processRawList dec0 dec1 sym0 sym1 tsOf
          (ethGetLogsDb db pool_addr start_block end_block [TOPIC_TOKEN_EX])) := by
  constructor
  · intro hne eth
    simp only [analyze_swaps_last_days]
    rw [if_neg hne]
  · intro he
    simp only [analyze_swaps_last_days]
    rw [if_pos he]
    have hcov := ftxr_coverage db pool_addr start_block end_block 500 20000 fuel h1 (by omega)
      (by
        have : end_block + 1 - start_block + (500 - 1) = end_block + 1 - start_block + 499 := by omega
        rw [this]
        exact h3) h2
    rw [hcov.1]

/-- C6 witness: an empty structured pass over `[1, 3]` triggers the raw
fallback, which processes exactly the topic-filtered full-range query of the
concrete backend `dbWitness`. -/
theorem analyze_fallback_policy_witness :
    analyze_swaps_last_days 18 18 ("A") ("B") (fun _ => 0) (fun _ _ _ => QOutcome.ok [])
        (ethOracleDb dbWitness) 7 1 3 5 =
      processRawList 18 18 ("A") ("B") (fun _ => 0)
        (ethGetLogsDb dbWitness 7 1 3 [TOPIC_TOKEN_EX]) :=
  (analyze_fallback_policy 18 18 ("A") ("B") (fun _ => 0) (fun _ _ _ => QOutcome.ok [])
      dbWitness 7 1 3 5 (by decide) (by decide) (by decide)).2 (by decide)
